import Mathlib

/-!
Verification development for the dynomite filter/query compiler and traversal
engine.  The definitions below are a shallow embedding of the TypeScript
source:

* `parseValue`, `normalizeFilterExpression`, `parseFilterOptions`,
  `parseSortToken` embed `src/unnamed/part_000` (the filter-options module
  with the function-call/inline-literal grammar);
* `buildKeyPart`, `mergeFilterAttrs`, `buildEngineCall`, `queryTableLoop`
  embed `queryTable` from `src/src/util.ts` (key-condition construction,
  filter-attribute merge, command selection and the pagination loop).

JavaScript strings are modelled as Lean `String`/`List Char`; JS objects used
as string-keyed maps are modelled as insertion-ordered association lists with
JS assignment semantics (`objInsert`).  JS `number` values obtained from
`parseInt` are modelled exactly as `Int`; values obtained from `parseFloat`
are abstracted as the matched literal token (no claim depends on IEEE
arithmetic).  Regular expressions are translated recognizer by recognizer,
including greediness and backtracking behaviour where observable, the
JS definitions of `\s`, `\w`, `\d`, the dot (which does not match line
terminators) and end-of-input anchoring.
-/

/-- The contiguous range U+2000-U+200A of the JavaScript `\s` class. -/
def jsSpaceRange (c : Char) : Bool :=
  0x2000 ≤ c.toNat && c.toNat ≤ 0x200A

/-- The character class `\s` of JavaScript regular expressions (also the set
removed by `String.prototype.trim`). -/
def jsIsSpace (c : Char) : Bool :=
  c == ' ' || c == '\t' || c == '\n' || c == '\r' ||
  c == '\x0b' || c == '\x0c' ||
  c == ' ' || c == ' ' ||
  jsSpaceRange c ||
  c == ' ' || c == ' ' || c == ' ' || c == ' ' ||
  c == '　' || c == '﻿'

/-- JavaScript line terminators: the characters NOT matched by the regex dot. -/
def jsIsLineTerm (c : Char) : Bool :=
  c == '\n' || c == '\r' || c == ' ' || c == ' '

/-- The character class `\w` of JavaScript regular expressions. -/
def jsIsWord (c : Char) : Bool :=
  ('a' ≤ c && c ≤ 'z') || ('A' ≤ c && c ≤ 'Z') || ('0' ≤ c && c ≤ '9') || c == '_'

/-- `String.prototype.trim` on a character list. -/
def jsTrimL (cs : List Char) : List Char :=
  ((cs.dropWhile jsIsSpace).reverse.dropWhile jsIsSpace).reverse

/-- `String.prototype.trim`. -/
def jsTrim (s : String) : String :=
  String.mk (jsTrimL s.data)

/-- The single-quote character (written via its code point). -/
def squote : Char := Char.ofNat 39

/-- One layer of matching surrounding quotes removed, as done by the repeated
`val.startsWith(q) && val.endsWith(q)` / `val.substring(1, val.length - 1)`
blocks in the source.  On a one-character string JS `substring(1, 0)` swaps
its arguments and returns the string unchanged, hence the two-character
minimum. -/
def stripQuotesL (cs : List Char) : List Char :=
  match cs with
  | c₁ :: c₂ :: rest =>
    let lc := (c₂ :: rest).getLastD ' '
    if (c₁ = '"' && lc = '"') || (c₁ = squote && lc = squote) then
      (c₂ :: rest).dropLast
    else cs
  | _ => cs

/-- String-level wrapper for `stripQuotesL`. -/
def stripQuotes (s : String) : String :=
  String.mk (stripQuotesL s.data)

/-- Values stored in the filter-attribute table.  `int` models the exact
result of `parseInt(v, 10)` on a `^-?\d+$` token, `float` keeps the matched
`^-?\d+\.\d+$` token (the IEEE value of `parseFloat` is abstracted), `undef`
models the JavaScript `undefined`. -/
inductive Value where
  | bool (b : Bool)
  | null
  | int (n : Int)
  | float (tok : String)
  | str (s : String)
  | undef
deriving DecidableEq, Repr

/-- Decimal digits to a natural number. -/
def decNat (ds : List Char) : Nat :=
  ds.foldl (fun a c => a * 10 + (c.toNat - '0'.toNat)) 0

/-- Does the character list match `^-?\d+$`? -/
def isIntLit (cs : List Char) : Bool :=
  match cs with
  | '-' :: ds => !ds.isEmpty && ds.all Char.isDigit
  | ds => !ds.isEmpty && ds.all Char.isDigit

/-- The integer denoted by a `^-?\d+$` token. -/
def parseIntLit (cs : List Char) : Int :=
  match cs with
  | '-' :: ds => -(decNat ds : Int)
  | ds => (decNat ds : Int)

/-- Does the character list (after an optional sign) match `\d+\.\d+`? -/
def floatBody (ds : List Char) : Bool :=
  let a := ds.takeWhile Char.isDigit
  let b := ds.dropWhile Char.isDigit
  !a.isEmpty &&
    match b with
    | '.' :: c => !c.isEmpty && c.all Char.isDigit
    | _ => false

/-- Does the character list match `^-?\d+\.\d+$`? -/
def isFloatLit (cs : List Char) : Bool :=
  match cs with
  | '-' :: ds => floatBody ds
  | ds => floatBody ds

/-- `parseValue` from `src/unnamed/part_000` (lines 304-318): literal
coercion of a clause value.  Note that it performs no quote stripping
itself; its callers strip quotes beforehand. -/
def parseValue (val : String) : Value :=
  if val = "true" then .bool true
  else if val = "false" then .bool false
  else if val = "null" then .null
  else if isIntLit val.data then .int (parseIntLit val.data)
  else if isFloatLit val.data then .float val
  else .str val

/-- Does the JS object have this key? -/
def objHasKey {α : Type} : List (String × α) → String → Bool
  | [], _ => false
  | p :: rest, k => p.1 == k || objHasKey rest k

/-- JS object assignment `m[k] = v`: update in place if the key exists,
otherwise append (insertion order is preserved, as in JS objects). -/
def objInsert {α : Type} (m : List (String × α)) (k : String) (v : α) :
    List (String × α) :=
  if objHasKey m k then m.map (fun p => if p.1 = k then (k, v) else p)
  else m ++ [(k, v)]

/-- JS object read `m[k]`. -/
def objGet {α : Type} : List (String × α) → String → Option α
  | [], _ => none
  | p :: rest, k => if p.1 = k then some p.2 else objGet rest k

/-- JS truthiness of an optional string (`undefined` and `""` are falsy). -/
def optTruthy : Option String → Bool
  | some s => !(s == "")
  | none => false

/-- `Array.prototype.join(sep)`. -/
def joinWith (sep : String) : List String → String
  | [] => ""
  | [s] => s
  | s :: rest => s ++ sep ++ joinWith sep rest

/-- `String.prototype.split(",")` on a character list. -/
def splitComma : List Char → List (List Char)
  | [] => [[]]
  | c :: rest =>
    if c = ',' then [] :: splitComma rest
    else
      match splitComma rest with
      | h :: t => (c :: h) :: t
      | [] => [[c]]

/-- Case-insensitive match of a concrete (lowercase) pattern against the
head of the input; returns the remainder.  Models a `/^literal/i` regex
component. -/
def ciStartsDrop : List Char → List Char → Option (List Char)
  | [], cs => some cs
  | _ :: _, [] => none
  | p :: ps, c :: cs => if c.toLower = p then ciStartsDrop ps cs else none

/-- Boolean form of `ciStartsDrop`. -/
def ciStarts (pat cs : List Char) : Bool :=
  (ciStartsDrop pat cs).isSome

/-- Case-insensitive equality of the input with a concrete lowercase word. -/
def ciIsWord : List Char → List Char → Bool
  | [], [] => true
  | p :: ps, c :: cs => c.toLower == p && ciIsWord ps cs
  | _, _ => false

/-- `/^(AND|OR)$/i`. -/
def isSepWord (cs : List Char) : Bool :=
  ciIsWord "and".data cs || ciIsWord "or".data cs

/-- The keyword alternative `(?:AND|OR)` (case-insensitive) at the head of
the input, returning the matched characters (original case) and the rest. -/
def kwSplit : List Char → Option (List Char × List Char)
  | a :: b :: c :: rest =>
    if a.toLower = 'a' && b.toLower = 'n' && c.toLower = 'd' then
      some ([a, b, c], rest)
    else if a.toLower = 'o' && b.toLower = 'r' then some ([a, b], c :: rest)
    else none
  | a :: b :: rest =>
    if a.toLower = 'o' && b.toLower = 'r' then some ([a, b], rest) else none
  | _ => none

/-- A match of the separator regex `\s+(?:AND|OR)\s+` anchored at the head of
the input: maximal whitespace run, the keyword, maximal trailing whitespace
run.  Returns the matched separator and the remainder. -/
def trySepAt (cs : List Char) : Option (List Char × List Char) :=
  let w1 := cs.takeWhile jsIsSpace
  let r1 := cs.dropWhile jsIsSpace
  if w1.isEmpty then none
  else
    match kwSplit r1 with
    | some kwr =>
      let w2 := kwr.2.takeWhile jsIsSpace
      let r3 := kwr.2.dropWhile jsIsSpace
      if w2.isEmpty then none else some (w1 ++ kwr.1 ++ w2, r3)
    | none => none

/-- One position of the left-to-right separator scan: a match anchored here
wins, otherwise the result of scanning the rest is shifted by this
character. -/
def findSepStep (c : Char) (rest : List Char)
    (sub : Option (List Char × List Char × List Char)) :
    Option (List Char × List Char × List Char) :=
  match trySepAt (c :: rest) with
  | some sa => some ([], sa.1, sa.2)
  | none =>
    match sub with
    | some bsa => some (c :: bsa.1, bsa.2.1, bsa.2.2)
    | none => none

/-- Leftmost match of the separator regex in the input: the prefix before the
match, the matched separator, and the remainder. -/
def findSep : List Char → Option (List Char × List Char × List Char)
  | [] => none
  | c :: rest => findSepStep c rest (findSep rest)

/-- `filter.split(/(\s+(?:AND|OR)\s+)/i)` with the captured separators kept
as their own elements (fuel-driven; the fuel `length + 1` always suffices
because each separator consumes at least three characters). -/
def splitGo : Nat → List Char → List (List Char)
  | 0, cs => [cs]
  | fuel + 1, cs =>
    match findSep cs with
    | none => [cs]
    | some bsa => bsa.1 :: bsa.2.1 :: splitGo fuel bsa.2.2

/-- The separator-keeping split of the normalizer (part_000 line 153). -/
def splitParts (cs : List Char) : List (List Char) :=
  splitGo (cs.length + 1) cs

/-- `^(\w+)` followed by the rest: maximal word run and remainder. -/
def wordRun (cs : List Char) : List Char × List Char :=
  (cs.takeWhile jsIsWord, cs.dropWhile jsIsWord)

/-- The group of `(\w+)\)$` applied after a consumed literal prefix:
a nonempty word run followed by exactly `)` at the end. -/
def wordParenEnd (cs : List Char) : Option String :=
  let fr := wordRun cs
  if fr.1.isEmpty then none
  else if fr.2 = [')'] then some (String.mk fr.1) else none

/-- The group of `\s*(.+)$` matched against the whole input: greedy
whitespace, then a nonempty dot-run (no line terminators) reaching the end;
on an all-whitespace input the `\s*` backtracks one character. -/
def wsDotTailEnd (r : List Char) : Option (List Char) :=
  let g := r.dropWhile jsIsSpace
  if !g.isEmpty then
    if g.any jsIsLineTerm then none else some g
  else
    match r.getLast? with
    | some lc => if jsIsLineTerm lc then none else some [lc]
    | none => none

/-- The group of `\s*(.+)\)$` matched against the whole input: as
`wsDotTailEnd` but the last character must be `)` (consumed, not part of the
group). -/
def wsDotTailParen (r : List Char) : Option (List Char) :=
  match r.getLast? with
  | some ')' => wsDotTailEnd r.dropLast
  | _ => none

/-- The group of `(.+)\)$` (no leading `\s*`) matched against the whole
input. -/
def dotTailParen (r : List Char) : Option (List Char) :=
  match r.getLast? with
  | some ')' =>
    let core := r.dropLast
    if core.isEmpty then none
    else if core.any jsIsLineTerm then none else some core
  | _ => none

/-- `/^attribute_exists\((\w+)\)$/i`. -/
def existsClause (cs : List Char) : Option String :=
  match ciStartsDrop "attribute_exists(".data cs with
  | some rest => wordParenEnd rest
  | none => none

/-- `/^attribute_not_exists\((\w+)\)$/i`. -/
def notExistsClause (cs : List Char) : Option String :=
  match ciStartsDrop "attribute_not_exists(".data cs with
  | some rest => wordParenEnd rest
  | none => none

/-- The shared tail `(\w+)\s*,\s*(.+)\)$` of the `begins_with`/`contains`
clause regexes: field name, comma, raw value group (pre-trim). -/
def fieldCommaDotParen (rest : List Char) : Option (String × String) :=
  let fr := wordRun rest
  if fr.1.isEmpty then none
  else
    match fr.2.dropWhile jsIsSpace with
    | ',' :: r3 =>
      match wsDotTailParen r3 with
      | some g => some (String.mk fr.1, String.mk g)
      | none => none
    | _ => none

/-- `/^begins_with\((\w+)\s*,\s*(.+)\)$/i`. -/
def beginsClause (cs : List Char) : Option (String × String) :=
  match ciStartsDrop "begins_with(".data cs with
  | some rest => fieldCommaDotParen rest
  | none => none

/-- `/^contains\((\w+)\s*,\s*(.+)\)$/i`. -/
def containsClause (cs : List Char) : Option (String × String) :=
  match ciStartsDrop "contains(".data cs with
  | some rest => fieldCommaDotParen rest
  | none => none

/-- The segment `\s*([^,]+)\s*,` of the between-clause regex: greedy
whitespace, a nonempty run of non-comma characters, then the comma.  When
the whitespace run is followed directly by the comma, the `\s*` backtracks
one character so the group becomes that single whitespace character (as in
`between(a,  ,2)`, whose first value is one space, trimmed to empty). -/
def wsNegCommaGroup (r3 : List Char) : Option (List Char × List Char) :=
  let w := r3.takeWhile jsIsSpace
  let r4 := r3.dropWhile jsIsSpace
  let g2 := r4.takeWhile (fun c => c ≠ ',')
  if g2.isEmpty then
    match r4 with
    | ',' :: r5 => if w.isEmpty then none else some ([w.getLastD ' '], r5)
    | _ => none
  else
    match r4.dropWhile (fun c => c ≠ ',') with
    | ',' :: r5 => some (g2, r5)
    | _ => none

/-- `/^between\((\w+)\s*,\s*([^,]+)\s*,\s*(.+)\)$/i`: field, first value
(everything up to the next comma) and second value group. -/
def betweenClause (cs : List Char) : Option (String × String × String) :=
  match ciStartsDrop "between(".data cs with
  | some rest =>
    let fr := wordRun rest
    if fr.1.isEmpty then none
    else
      match fr.2.dropWhile jsIsSpace with
      | ',' :: r3 =>
        match wsNegCommaGroup r3 with
        | some gr =>
          match wsDotTailParen gr.2 with
          | some g3 => some (String.mk fr.1, String.mk gr.1, String.mk g3)
          | none => none
        | none => none
      | _ => none
  | none => none

/-- The comparison-operator alternative `(=|!=|<=|>=|<|>)`: ALL alternatives
that match at this position, in the source's trial order.  Keeping the full
list models regex backtracking: when the remainder of the pattern fails
after a two-character operator, the engine retries with the one-character
one (e.g. in `"a<="` the `<=` alternative leaves nothing for `(.+)$`, so
the match succeeds with operator `<` and value `=`). -/
def opAltCmpList : List Char → List (String × List Char)
  | '=' :: rest => [("=", rest)]
  | '!' :: '=' :: rest => [("!=", rest)]
  | '<' :: '=' :: rest => [("<=", rest), ("<", '=' :: rest)]
  | '>' :: '=' :: rest => [(">=", rest), (">", '=' :: rest)]
  | '<' :: rest => [("<", rest)]
  | '>' :: rest => [(">", rest)]
  | _ => []

/-- Try each operator alternative in order, continuing with `\s*(.+)$`;
the first alternative whose tail matches wins (regex backtracking over the
alternation). -/
def firstTailMatch : List (String × List Char) → Option (String × String)
  | [] => none
  | (op, rest) :: more =>
    match wsDotTailEnd rest with
    | some g => some (op, String.mk g)
    | none => firstTailMatch more

/-- `/^size\((\w+)\)\s*(=|!=|<=|>=|<|>)\s*(.+)$/i`. -/
def sizeClause (cs : List Char) : Option (String × String × String) :=
  match ciStartsDrop "size(".data cs with
  | some rest =>
    let fr := wordRun rest
    if fr.1.isEmpty then none
    else
      match fr.2 with
      | ')' :: r1 =>
        match firstTailMatch (opAltCmpList (r1.dropWhile jsIsSpace)) with
        | some ov => some (String.mk fr.1, ov.1, ov.2)
        | none => none
      | _ => none
  | none => none

/-- `/^(\w+)\s+IN\s*\((.+)\)$/i`: field and the raw parenthesised list. -/
def inClause (cs : List Char) : Option (String × List Char) :=
  let fr := wordRun cs
  if fr.1.isEmpty then none
  else
    let w := fr.2.takeWhile jsIsSpace
    if w.isEmpty then none
    else
      match ciStartsDrop "in".data (fr.2.dropWhile jsIsSpace) with
      | some r2 =>
        match r2.dropWhile jsIsSpace with
        | '(' :: r3 =>
          match dotTailParen r3 with
          | some g => some (String.mk fr.1, g)
          | none => none
        | _ => none
      | none => none

/-- `/^(\w+)\s*(=|!=|<=|>=|<|>)\s*(.+)$/`. -/
def compClause (cs : List Char) : Option (String × String × String) :=
  let fr := wordRun cs
  if fr.1.isEmpty then none
  else
    match firstTailMatch (opAltCmpList (fr.2.dropWhile jsIsSpace)) with
    | some ov => some (String.mk fr.1, ov.1, ov.2)
    | none => none

/-- Trim then strip one layer of matching quotes, the value pipeline applied
by every clause recognizer before `parseValue`. -/
def clauseValue (raw : String) : Value :=
  parseValue (stripQuotes (jsTrim raw))

/-- The body of the IN-operator branch (part_000 lines 252-276): split the
parenthesised list on every comma, coerce each fragment, and emit one value
placeholder `:<field>_in<idx>` per fragment. -/
def inEmit (field : String) (valuesStr : List Char)
    (attrs : List (String × Value)) : String × List (String × Value) :=
  let vals := (splitComma valuesStr).map (fun v => clauseValue (String.mk v))
  let keys := (List.range vals.length).map (fun i => field ++ "_in" ++ toString i)
  ("#" ++ field ++ " IN (" ++ joinWith ", " (keys.map (":" ++ ·)) ++ ")",
   (keys.zip vals).foldl (fun a kv => objInsert a kv.1 kv.2) attrs)

/-- One element of the split: the body of the `parts.map` callback in
`normalizeFilterExpression` (part_000 lines 155-299).  Returns the emitted
element and the updated attributes object. -/
def processPart (attrs : List (String × Value)) (part : List Char) :
    String × List (String × Value) :=
  let trimmed := jsTrimL part
  if isSepWord trimmed then (String.mk trimmed, attrs)
  else
    match existsClause trimmed with
    | some field => ("attribute_exists(#" ++ field ++ ")", attrs)
    | none =>
    match notExistsClause trimmed with
    | some field => ("attribute_not_exists(#" ++ field ++ ")", attrs)
    | none =>
    match beginsClause trimmed with
    | some fv =>
      ("begins_with(#" ++ fv.1 ++ ", :" ++ fv.1 ++ ")",
       objInsert attrs fv.1 (clauseValue fv.2))
    | none =>
    match containsClause trimmed with
    | some fv =>
      ("contains(#" ++ fv.1 ++ ", :" ++ fv.1 ++ ")",
       objInsert attrs fv.1 (clauseValue fv.2))
    | none =>
    match betweenClause trimmed with
    | some fvv =>
      ("#" ++ fvv.1 ++ " BETWEEN :" ++ fvv.1 ++ "_between1 AND :" ++ fvv.1 ++
         "_between2",
       objInsert (objInsert attrs (fvv.1 ++ "_between1") (clauseValue fvv.2.1))
         (fvv.1 ++ "_between2") (clauseValue fvv.2.2))
    | none =>
    match sizeClause trimmed with
    | some fov =>
      ("size(#" ++ fov.1 ++ ") " ++ fov.2.1 ++ " :" ++ fov.1 ++ "_size",
       objInsert attrs (fov.1 ++ "_size") (clauseValue fov.2.2))
    | none =>
    match inClause trimmed with
    | some fl => inEmit fl.1 fl.2 attrs
    | none =>
    match compClause trimmed with
    | some fov =>
      ("#" ++ fov.1 ++ " " ++ fov.2.1 ++ " :" ++ fov.1,
       objInsert attrs fov.1 (clauseValue fov.2.2))
    | none => (String.mk part, attrs)

/-- The result record of the normalizer. -/
structure NormResult where
  expression : String
  attributes : List (String × Value)
deriving DecidableEq, Repr

/-- `parts.map(...)` with the closure-mutated `attributes` object, as a left
fold producing the emitted elements and the final attributes. -/
def normParts : List (String × Value) → List (List Char) → List String × List (String × Value)
  | attrs, [] => ([], attrs)
  | attrs, p :: rest =>
    let pr := processPart attrs p
    let r := normParts pr.2 rest
    (pr.1 :: r.1, r.2)

/-- `normalizeFilterExpression` from part_000 (lines 146-302). -/
def normalizeFilterExpression (filter : String) : NormResult :=
  let r := normParts [] (splitParts filter.data)
  ⟨joinWith " " r.1, r.2⟩

deriving instance DecidableEq for Except

/-- The sort-key comparison alternative `(<=|>=|<|>|=)`, tried in the
source's order (part_000 line 104): a `<` or `>` extends to `<=`/`>=` when
the next character is `=`, since the two-character alternatives are tried
first. -/
def opAltSort : List Char → Option (String × List Char)
  | c :: rest =>
    if c = '<' then
      match rest with
      | c2 :: rest2 => if c2 = '=' then some ("<=", rest2) else some ("<", rest)
      | [] => some ("<", [])
    else if c = '>' then
      match rest with
      | c2 :: rest2 => if c2 = '=' then some (">=", rest2) else some (">", rest)
      | [] => some (">", [])
    else if c = '=' then some ("=", rest)
    else none
  | [] => none

/-- The optional separator `[:\s]?` after the operator: one colon or
whitespace character is consumed when present. -/
def optSepDrop : List Char → List Char
  | c :: t => if c == ':' || jsIsSpace c then t else c :: t
  | [] => []

/-- `/^(<=|>=|<|>|=)[:\s]?(.*)$/` on the sort-key token: operator, one
optional colon-or-whitespace separator character, and the remaining value,
which the dot cannot span across a line terminator. -/
def sortComp (cs : List Char) : Option (String × String) :=
  match opAltSort cs with
  | some opr =>
    let rest2 := optSepDrop opr.2
    if rest2.any jsIsLineTerm then none
    else some (opr.1, String.mk (jsTrimL rest2))
  | none => none

/-- `/^between\(([^,]+),\s*([^\)]+)\)$/i` on the sort-key token: the two
(untrimmed) groups. -/
def sortBetween (cs : List Char) : Option (String × String) :=
  match ciStartsDrop "between(".data cs with
  | some rest =>
    let g1 := rest.takeWhile (fun c => c ≠ ',')
    if g1.isEmpty then none
    else
      match rest.dropWhile (fun c => c ≠ ',') with
      | ',' :: r2 =>
        match r2.getLast? with
        | some ')' =>
          let core := r2.dropLast
          if core.any (fun c => c = ')') || core.isEmpty then none
          else
            let g2 := core.dropWhile jsIsSpace
            if !g2.isEmpty then some (String.mk g1, String.mk g2)
            else some (String.mk g1, String.mk [core.getLastD ' '])
        | _ => none
      | _ => none
  | none => none

/-- `/^begins_with\(([^\)]+)\)$/i` on the sort-key token: the (untrimmed)
group. -/
def sortBegins (cs : List Char) : Option String :=
  match ciStartsDrop "begins_with(".data cs with
  | some rest =>
    match rest.getLast? with
    | some ')' =>
      let core := rest.dropLast
      if core.any (fun c => c = ')') || core.isEmpty then none
      else some (String.mk core)
    | _ => none
  | none => none

/-- One sort-key clause of a compiled query (`QueryOptions.sortKey` in
util.ts). -/
structure SortKeyClause where
  name : String
  operator : String
  value : Value
  value2 : Option Value := none
deriving DecidableEq, Repr

/-- The partition-key clause of a compiled query. -/
structure PartitionKeyClause where
  name : String
  value : Value
deriving DecidableEq, Repr

/-- `QueryOptions` from util.ts (lines 32-38). -/
structure QueryOptions where
  partitionKey : Option PartitionKeyClause := none
  sortKey : Option SortKeyClause := none
  indexName : Option String := none
  filterExpression : Option String := none
  filterAttributes : Option (List (String × Value)) := none
deriving DecidableEq, Repr

/-- `KeySchema` from util.ts (lines 40-43). -/
structure KeySchema where
  partitionKey : String
  sortKey : Option String := none
deriving DecidableEq, Repr

/-- The raw command-line options consumed by `parseFilterOptions`. -/
structure FilterCommandOptions where
  partitionKey : Option String := none
  sortKey : Option String := none
  index : Option String := none
  filter : Option String := none
deriving DecidableEq, Repr

/-- The sort-key branch of `parseFilterOptions` (part_000 lines 71-119):
`between(...)`, `begins_with(...)`, comparison-operator, or bare equality,
with the source's thrown errors as `Except.error`. -/
def parseSortToken (name : String) (input : String) : Except String SortKeyClause :=
  if ciStarts "between(".data input.data then
    match sortBetween input.data with
    | some vv => .ok ⟨name, "between", .str (jsTrim vv.1), some (.str (jsTrim vv.2))⟩
    | none => .error "Invalid between format. Use: between(val1,val2)"
  else if ciStarts "begins_with(".data input.data then
    match sortBegins input.data with
    | some v => .ok ⟨name, "begins_with", .str (stripQuotes (jsTrim v)), none⟩
    | none => .error "Invalid begins_with format. Use: begins_with(prefix)"
  else
    match sortComp input.data with
    | some ov => .ok ⟨name, ov.1, .str ov.2, none⟩
    | none => .ok ⟨name, "=", .str input, none⟩

/-- `parseFilterOptions` from part_000 (lines 38-139).  JS truthiness guards
the presence of each option; the partition key is used verbatim; errors
thrown in the sort-key branch abort with no partial result. -/
def parseFilterOptions (options : FilterCommandOptions) (keySchema : KeySchema) :
    Except String QueryOptions :=
  let q0 : QueryOptions := {}
  let q1 :=
    match options.partitionKey with
    | some input =>
      if input = "" then q0
      else { q0 with partitionKey := some ⟨keySchema.partitionKey, .str input⟩ }
    | none => q0
  let step2 : Except String QueryOptions :=
    match options.sortKey with
    | some input =>
      if input = "" then .ok q1
      else
        match keySchema.sortKey with
        | some name =>
          if name = "" then .error "Table does not have a sort key"
          else
            match parseSortToken name input with
            | .ok sk => .ok { q1 with sortKey := some sk }
            | .error e => .error e
        | none => .error "Table does not have a sort key"
    | none => .ok q1
  match step2 with
  | .error e => .error e
  | .ok q2 =>
    let q3 :=
      match options.index with
      | some idx => if idx = "" then q2 else { q2 with indexName := some idx }
      | none => q2
    let q4 :=
      match options.filter with
      | some f =>
        if f = "" then q3
        else
          let r := normalizeFilterExpression f
          { q3 with filterExpression := some r.expression,
                    filterAttributes := some r.attributes }
      | none => q3
    .ok q4

/-- The request parameters assembled by `queryTable` before its pagination
loop (util.ts lines 79-178).  `usesQuery` records the choice between the
key-conditioned read (`QueryCommand`) and the full sweep (`ScanCommand`),
made by JS truthiness of `KeyConditionExpression`. -/
structure EngineCall where
  usesQuery : Bool
  keyConditionExpression : Option String
  expressionAttributeNames : List (String × String)
  expressionAttributeValues : List (String × Value)
  filterExpression : Option String
deriving DecidableEq, Repr

/-- The key-condition part of `queryTable` (util.ts lines 82-128): the
`KeyConditionExpression` string and the initial placeholder maps, with the
source's `Unsupported sort key operator` throw as `Except.error`. -/
def buildKeyPart (o : QueryOptions) :
    Except String (Option String × List (String × String) × List (String × Value)) :=
  match o.partitionKey with
  | none => .ok (none, [], [])
  | some pk =>
    let names := objInsert ([] : List (String × String)) ("#" ++ pk.name) pk.name
    let values := objInsert ([] : List (String × Value)) (":" ++ pk.name) pk.value
    let kce := "#" ++ pk.name ++ " = " ++ ":" ++ pk.name
    match o.sortKey with
    | none => .ok (some kce, names, values)
    | some sk =>
      let names := objInsert names ("#" ++ sk.name) sk.name
      let values := objInsert values (":" ++ sk.name) sk.value
      let skn := "#" ++ sk.name
      let skv := ":" ++ sk.name
      if sk.operator = "=" then
        .ok (some (kce ++ " AND " ++ skn ++ " = " ++ skv), names, values)
      else if sk.operator = "<" then
        .ok (some (kce ++ " AND " ++ skn ++ " < " ++ skv), names, values)
      else if sk.operator = "<=" then
        .ok (some (kce ++ " AND " ++ skn ++ " <= " ++ skv), names, values)
      else if sk.operator = ">" then
        .ok (some (kce ++ " AND " ++ skn ++ " > " ++ skv), names, values)
      else if sk.operator = ">=" then
        .ok (some (kce ++ " AND " ++ skn ++ " >= " ++ skv), names, values)
      else if sk.operator = "begins_with" then
        .ok (some (kce ++ " AND begins_with(" ++ skn ++ ", " ++ skv ++ ")"),
          names, values)
      else if sk.operator = "between" then
        let values := objInsert values (":" ++ sk.name ++ "2") (sk.value2.getD .undef)
        .ok (some (kce ++ " AND " ++ skn ++ " BETWEEN " ++ skv ++ " AND " ++
            skv ++ "2"), names, values)
      else .error ("Unsupported sort key operator: " ++ sk.operator)

/-- The filter-attribute merge of `queryTable` (util.ts lines 130-145):
every filter attribute's value placeholder is assigned unconditionally,
its name placeholder only when not already truthy in the name map. -/
def mergeFilterAttrs (names : List (String × String))
    (values : List (String × Value)) (fa : List (String × Value)) :
    List (String × String) × List (String × Value) :=
  fa.foldl
    (fun nv kv =>
      let values := objInsert nv.2 (":" ++ kv.1) kv.2
      let np := "#" ++ kv.1
      let names := if optTruthy (objGet nv.1 np) then nv.1 else objInsert nv.1 np kv.1
      (names, values))
    (names, values)

/-- The full pre-loop setup of `queryTable`: key condition, placeholder maps,
filter-attribute merge and command selection. -/
def buildEngineCall (o : QueryOptions) : Except String EngineCall :=
  match buildKeyPart o with
  | .error e => .error e
  | .ok knv =>
    let nv := mergeFilterAttrs knv.2.1 knv.2.2 (o.filterAttributes.getD [])
    .ok ⟨optTruthy knv.1, knv.1, nv.1, nv.2, o.filterExpression⟩

/-- The pagination loop of `queryTable` (util.ts lines 147-183), abstracted
over the read operation: invoke `read` with the current cursor (`none` on
the first invocation), emit the page's items, and repeat with the returned
continuation cursor until a response carries none.  Returns the emitted
records and the number of read invocations.  The fuel argument only bounds
the recursion; any fuel at least the page count gives the loop's value. -/
def queryTableLoop {κ ρ : Type} (read : Option κ → List ρ × Option κ) :
    Nat → Option κ → List ρ × Nat
  | 0, _ => ([], 0)
  | fuel + 1, cursor =>
    let page := read cursor
    match page.2 with
    | none => (page.1, 1)
    | some c =>
      let rest := queryTableLoop read fuel (some c)
      (page.1 ++ rest.1, rest.2 + 1)

/-- The cursor passed to read invocation `i` when the loop starts from
cursor `c`: invocation `0` receives `c`, invocation `i+1` receives the
cursor returned by invocation `i` verbatim. -/
def chainFrom {κ ρ : Type} (read : Option κ → List ρ × Option κ)
    (c : Option κ) : Nat → Option κ
  | 0 => c
  | i + 1 => (read (chainFrom read c i)).2

/-- A three-item, two-page table fixture for the pagination witness. -/
def pagesFixture : Option Nat → List Nat × Option Nat := fun c =>
  match c with
  | none => ([10, 20], some 1)
  | some _ => ([30], none)

/-- An element the normalizer passes through unchanged: processing it
returns the element verbatim and leaves the attributes untouched (this is
what happens to any element matching no clause recognizer and not in need
of separator trimming). -/
def passThru (p : List Char) : Prop :=
  ∀ attrs, processPart attrs p = (String.mk p, attrs)

/-- A canonical separator element: an AND/OR word with exactly one space on
each side, which processing turns back into the bare word (so that the
single-space rejoin reproduces the original separator). -/
def canonSep (s : List Char) : Prop :=
  ∃ w, s = ' ' :: (w ++ [' ']) ∧
    ∀ attrs, processPart attrs s = (String.mk w, attrs)

/-- The alternating clause/separator structure (as produced by the
separator-keeping split) under which normalization is the identity. -/
def partsOk : List (List Char) → Prop
  | [] => True
  | [p] => passThru p
  | [_, _] => False
  | p :: s :: q :: rest => passThru p ∧ canonSep s ∧ partsOk (q :: rest)

/-! ## Theorems -/

theorem splitComma_length (cs : List Char) :
    (splitComma cs).length = cs.count ',' + 1 := by
  induction cs with
  | nil => rfl
  | cons c rest ih =>
    by_cases hc : c = ','
    · subst hc
      simp [splitComma, List.count_cons, ih]
    · cases hsp : splitComma rest with
      | nil => simp [hsp] at ih
      | cons h t =>
        rw [hsp] at ih
        simp [splitComma, hc, hsp, List.count_cons]
        simpa [hsp] using ih

/-- C10: the normalizer's IN clause splits the parenthesised list on every
comma without regard to quoting, so it introduces exactly one value
placeholder per comma-separated fragment (one plus the number of comma
characters in the list); on `status IN ('a,b')` this produces two
placeholders out of the one logical quoted value, and the quotes are not
stripped from the fragments. -/
theorem C10_in_comma_split :
    (∀ (f : String) (L : List Char) (attrs : List (String × Value)),
      (inEmit f L attrs).1 =
        "#" ++ f ++ " IN (" ++
          joinWith ", "
            ((List.range (L.count ',' + 1)).map
              (fun i => ":" ++ f ++ "_in" ++ toString i)) ++ ")") ∧
    normalizeFilterExpression "status IN ('a,b')" =
      ⟨"#status IN (:status_in0, :status_in1)",
       [("status_in0", .str "'a"), ("status_in1", .str "b'")]⟩ := by
  constructor
  · intro f L attrs
    simp only [inEmit, List.length_map, splitComma_length, List.map_map]
    congr 1
  · decide

/-- C1 (code-bug evidence): for filters built from `attribute_exists` and
`between` clauses the emitted expression references the bare `#attr` name
placeholder, but the maps handed to the read operation contain no entry for
it — `attribute_exists(x)` yields an empty name map, and `between(a,1,2)`
registers only the suffixed `#a_between1`/`#a_between2` names, so `#a`
dangles. -/
theorem C1_dangling_name :
    parseFilterOptions { filter := some "attribute_exists(x)" } ⟨"id", none⟩ =
      .ok { filterExpression := some "attribute_exists(#x)",
            filterAttributes := some [] } ∧
    buildEngineCall
        { filterExpression := some "attribute_exists(#x)",
          filterAttributes := some [] } =
      .ok ⟨false, none, [], [], some "attribute_exists(#x)"⟩ ∧
    "attribute_exists(#x)" = "attribute_exists(" ++ "#x" ++ ")" ∧
    objGet ([] : List (String × String)) "#x" = none ∧
    (normalizeFilterExpression "between(a,1,2)").expression =
      "#a" ++ " BETWEEN :a_between1 AND :a_between2" ∧
    (mergeFilterAttrs [] []
        (normalizeFilterExpression "between(a,1,2)").attributes).1 =
      [("#a_between1", "a_between1"), ("#a_between2", "a_between2")] ∧
    objGet (mergeFilterAttrs [] []
        (normalizeFilterExpression "between(a,1,2)").attributes).1 "#a" =
      none := by
  decide

/-- C2 counterexample: the claim says a value in matching quotes whose inner
text is all digits is coerced to a string; the code strips the quotes first
and then coerces, so `'123'` becomes the integer 123, not the string
`"123"`. -/
theorem C2_counterexample :
    (normalizeFilterExpression "a='123'").attributes = [("a", .int 123)] ∧
    (normalizeFilterExpression "a='123'").attributes ≠ [("a", .str "123")] := by
  decide

/-- C2 amended: one layer of matching quotes is stripped BEFORE literal
coercion, so quoted `'true'`/`'null'`/`'42'` coerce to boolean/null/integer
exactly like their bare forms; only a stripped token matching none of the
boolean/null/integer/float patterns remains a string. -/
theorem C2_amended :
    (normalizeFilterExpression "a='true'").attributes = [("a", .bool true)] ∧
    (normalizeFilterExpression "a='null'").attributes = [("a", .null)] ∧
    (normalizeFilterExpression "a='42'").attributes = [("a", .int 42)] ∧
    (normalizeFilterExpression "a=42").attributes = [("a", .int 42)] ∧
    (normalizeFilterExpression "a=false").attributes = [("a", .bool false)] ∧
    (normalizeFilterExpression "a=1.5").attributes = [("a", .float "1.5")] ∧
    (normalizeFilterExpression "a='x y'").attributes = [("a", .str "x y")] ∧
    (normalizeFilterExpression "a=hello").attributes = [("a", .str "hello")] := by
  decide

/-- C3 (code-bug evidence): the comparison clause stores its literal under
the bare attribute name, so two clauses on the same attribute collide —
`age>18 AND age<30` leaves a single entry `age ↦ 30` (the 18 is silently
overwritten and both emitted clauses reference `:age`), and a literal
attribute named `a_in0` collides with the suffixed key generated for
`a IN (1,2)`. -/
theorem C3_collision :
    normalizeFilterExpression "age>18 AND age<30" =
      ⟨"#age > :age AND #age < :age", [("age", .int 30)]⟩ ∧
    normalizeFilterExpression "a IN (1,2) AND a_in0=5" =
      ⟨"#a IN (:a_in0, :a_in1) AND #a_in0 = :a_in0",
       [("a_in0", .int 5), ("a_in1", .int 2)]⟩ := by
  decide

/-- C7 counterexample: the malformed sort token `between(1)` does fail, but
the error is the fixed message `Invalid between format. Use:
between(val1,val2)` — two different offending tokens produce the identical
report, and the offending token is not contained in the message, so the
`ParseError` is not "reported with the offending token" as the claim
states. -/
theorem C7_counterexample :
    parseFilterOptions { sortKey := some "between(1)" } ⟨"id", some "ts"⟩ =
      .error "Invalid between format. Use: between(val1,val2)" ∧
    parseFilterOptions { sortKey := some "between(2)" } ⟨"id", some "ts"⟩ =
      parseFilterOptions { sortKey := some "between(1)" } ⟨"id", some "ts"⟩ ∧
    ¬ List.IsInfix "between(1)".data
        "Invalid between format. Use: between(val1,val2)".data := by
  refine ⟨by decide, by decide, ?_⟩
  decide

/-- C7 amended: a well-formed sort token `between(1,5)` compiles to the
`between` clause with values `"1"` and `"5"`, and the malformed `between(1)`
fails with a `ParseError` carrying the fixed message `Invalid between
format. Use: between(val1,val2)` (which does not name the offending token),
producing no partial result (the error aborts the whole compilation). -/
theorem C7_between :
    parseFilterOptions { sortKey := some "between(1,5)" } ⟨"id", some "ts"⟩ =
      .ok { sortKey := some ⟨"ts", "between", .str "1", some (.str "5")⟩ } ∧
    parseFilterOptions { sortKey := some "between(1)" } ⟨"id", some "ts"⟩ =
      .error "Invalid between format. Use: between(val1,val2)" := by
  decide

theorem chainFrom_succ_shift {κ ρ : Type} (read : Option κ → List ρ × Option κ)
    (c : Option κ) (c' : κ) (hc : (read c).2 = some c') :
    ∀ i, chainFrom read (some c') i = chainFrom read c (i + 1) := by
  intro i
  induction i with
  | zero => simp [chainFrom, hc]
  | succ i ih => simp [chainFrom, ih]

theorem queryTableLoop_spec {κ ρ : Type} (read : Option κ → List ρ × Option κ) :
    ∀ (K fuel : Nat) (c : Option κ), 1 ≤ K → K ≤ fuel →
      (read (chainFrom read c (K - 1))).2 = none →
      (∀ i, i + 1 < K → (read (chainFrom read c i)).2.isSome) →
      queryTableLoop read fuel c =
        (((List.range K).map (fun i => (read (chainFrom read c i)).1)).flatten, K) := by
  intro K
  induction K with
  | zero => intro fuel c h; omega
  | succ K ih =>
    intro fuel c _ hfuel hterm hcont
    obtain ⟨fuel, rfl⟩ : ∃ f, fuel = f + 1 := ⟨fuel - 1, by omega⟩
    rcases Nat.eq_zero_or_pos K with hK0 | hKpos
    · subst hK0
      simp only [chainFrom] at hterm
      simp [queryTableLoop, hterm, List.range_succ, chainFrom]
    · have h0 : (read c).2.isSome := by
        have := hcont 0 (by omega)
        simpa [chainFrom] using this
      obtain ⟨c', hc'⟩ := Option.isSome_iff_exists.mp h0
      have hshift := chainFrom_succ_shift read c c' hc'
      have hterm' : (read (chainFrom read (some c') (K - 1))).2 = none := by
        rw [hshift]
        have : K - 1 + 1 = K + 1 - 1 := by omega
        rw [this]
        exact hterm
      have hcont' : ∀ i, i + 1 < K → (read (chainFrom read (some c') i)).2.isSome := by
        intro i hi
        rw [hshift]
        exact hcont (i + 1) (by omega)
      have hrec := ih fuel (some c') hKpos (by omega) hterm' hcont'
      simp only [queryTableLoop, hc', hrec]
      rw [List.range_succ_eq_map]
      simp only [List.map_cons, List.map_map, List.flatten_cons, chainFrom]
      congr 2
      refine congrArg List.flatten ?_
      apply List.map_congr_left
      intro i _
      simp only [Function.comp_apply, hshift i]

/-- C4: for a read operation that reports its matching items over K pages
(the cursor chain starting from no cursor returns a continuation cursor on
the first K-1 responses and none on the K-th), the pagination loop yields
exactly the concatenation of the K pages — hence exactly N records when the
pages hold N items in total — using exactly K read invocations, passing no
cursor to the first invocation and each returned continuation cursor
verbatim to the next (`chainFrom`), and stops at the first response with no
cursor; any fuel bound of at least K gives this same value. -/
theorem C4_pagination {κ ρ : Type} (read : Option κ → List ρ × Option κ)
    (K fuel : Nat) (hK : 1 ≤ K) (hfuel : K ≤ fuel)
    (hterm : (read (chainFrom read (none : Option κ) (K - 1))).2 = none)
    (hcont : ∀ i, i + 1 < K → (read (chainFrom read (none : Option κ) i)).2.isSome) :
    queryTableLoop read fuel none =
      (((List.range K).map (fun i => (read (chainFrom read none i)).1)).flatten, K) :=
  queryTableLoop_spec read K fuel none hK hfuel hterm hcont

theorem C4_pagination_witness :
    queryTableLoop pagesFixture 2 none = ([10, 20, 30], 2) := by
  have h := C4_pagination pagesFixture 2 2 (by decide) (by decide) (by decide)
    (by
      intro i hi
      have h0 : i = 0 := by omega
      subst h0
      decide)
  rw [h]
  decide

theorem strAppend_ne_empty (s t : String) (h : s ≠ "") : s ++ t ≠ "" := by
  intro he
  apply h
  cases s with
  | mk ds =>
    cases t with
    | mk es =>
      have hd : ds ++ es = ([] : List Char) := congrArg String.data he
      have h1 : ds = [] := (List.append_eq_nil.mp hd).1
      rw [h1]

theorem hash_ne_empty (t : String) : ("#" ++ t : String) ≠ "" :=
  strAppend_ne_empty "#" t (by decide)

theorem buildKeyPart_kce (o : QueryOptions) (kce : Option String)
    (ns : List (String × String)) (vs : List (String × Value))
    (h : buildKeyPart o = .ok (kce, ns, vs)) :
    optTruthy kce = o.partitionKey.isSome := by
  cases hpk : o.partitionKey with
  | none =>
    simp only [buildKeyPart, hpk, Except.ok.injEq, Prod.mk.injEq] at h
    obtain ⟨h1, -, -⟩ := h
    subst h1
    rfl
  | some pk =>
    cases hsk : o.sortKey with
    | none =>
      simp only [buildKeyPart, hpk, hsk, Except.ok.injEq, Prod.mk.injEq] at h
      obtain ⟨h1, -, -⟩ := h
      subst h1
      simp only [optTruthy, Option.isSome_some, Bool.not_eq_true',
        beq_eq_false_iff_ne, ne_eq]
      repeat apply strAppend_ne_empty
      decide
    | some sk =>
      simp only [buildKeyPart, hpk, hsk] at h
      repeat' split at h
      all_goals
        first
        | exact Except.noConfusion h
        | (simp only [Except.ok.injEq, Prod.mk.injEq] at h
           obtain ⟨h1, -, -⟩ := h
           subst h1
           simp only [optTruthy, Option.isSome_some, Bool.not_eq_true',
             beq_eq_false_iff_ne, ne_eq]
           repeat apply strAppend_ne_empty
           decide)

/-- C5: compiling with all four tokens absent yields the empty compiled
query, and (whenever the engine's setup succeeds) the engine chooses the
key-conditioned read operation exactly when a partition-key clause is
present and the unconditioned full sweep exactly when it is absent — the
choice is made by JS truthiness of `KeyConditionExpression`, which is built
(and nonempty) precisely in the partition-key case. -/
theorem C5_mode :
    (∀ ks : KeySchema, parseFilterOptions {} ks = .ok {}) ∧
    (∀ (o : QueryOptions) (r : EngineCall), buildEngineCall o = .ok r →
      (r.usesQuery = true ↔ o.partitionKey.isSome = true)) := by
  constructor
  · intro ks
    rfl
  · intro o r hr
    unfold buildEngineCall at hr
    cases hkp : buildKeyPart o with
    | error e =>
      rw [hkp] at hr
      simp at hr
    | ok knv =>
      obtain ⟨kce, ns, vs⟩ := knv
      rw [hkp] at hr
      simp only [Except.ok.injEq] at hr
      subst hr
      rw [show (optTruthy kce = o.partitionKey.isSome) from
        buildKeyPart_kce o kce ns vs hkp]

theorem C5_mode_witness :
    parseFilterOptions {} ⟨"id", none⟩ = .ok {} ∧
    ((true : Bool) = true ↔
      (QueryOptions.partitionKey
          { partitionKey := some ⟨"id", .str "A"⟩ }).isSome = true) := by
  refine ⟨C5_mode.1 ⟨"id", none⟩, ?_⟩
  have h := C5_mode.2 { partitionKey := some ⟨"id", .str "A"⟩ }
    ⟨true, some "#id = :id", [("#id", "id")], [(":id", .str "A")], none⟩ (by decide)
  exact h

theorem objGet_objInsert_self {α : Type} (m : List (String × α)) (k : String)
    (v : α) : objGet (objInsert m k v) k = some v := by
  unfold objInsert
  split
  · rename_i hany
    induction m with
    | nil => simp [objHasKey] at hany
    | cons p rest ih =>
      by_cases hp : p.1 = k
      · simp [objGet, hp]
      · have hrest : objHasKey rest k = true := by
          simp only [objHasKey, Bool.or_eq_true, beq_iff_eq] at hany
          rcases hany with h | h
          · exact absurd h hp
          · exact h
        simpa [objGet, hp] using ih hrest
  · induction m with
    | nil => simp [objGet]
    | cons p rest ih =>
      rename_i hany
      have hp : ¬p.1 = k := by
        intro hc
        apply hany
        simp [objHasKey, hc]
      have hrest : ¬objHasKey rest k = true := by
        intro hc
        apply hany
        simp [objHasKey, hc]
      simpa [objGet, hp] using ih hrest

theorem objGet_objInsert_ne {α : Type} (m : List (String × α)) (k k' : String)
    (v : α) (hne : k' ≠ k) : objGet (objInsert m k' v) k = objGet m k := by
  have hmap : ∀ m₀ : List (String × α),
      objGet (m₀.map (fun p => if p.1 = k' then (k', v) else p)) k = objGet m₀ k := by
    intro m₀
    induction m₀ with
    | nil => rfl
    | cons p rest ih =>
      by_cases hp : p.1 = k'
      · have hpk : ¬p.1 = k := fun hc => hne (hp ▸ hc)
        simp [objGet, hp, hne, hpk, ih, Ne.symm hne]
      · by_cases hpk : p.1 = k
        · simp [objGet, hp, hpk, Ne.symm hne]
        · simp [objGet, hp, hpk, ih, Ne.symm hne]
  have happ : ∀ m₀ : List (String × α),
      objGet (m₀ ++ [(k', v)]) k = objGet m₀ k := by
    intro m₀
    induction m₀ with
    | nil => simp [objGet, hne]
    | cons p rest ih =>
      by_cases hpk : p.1 = k
      · simp [objGet, hpk]
      · simp only [List.cons_append, objGet, if_neg hpk]
        exact ih
  unfold objInsert
  split
  · exact hmap m
  · exact happ m

theorem objGet_colonFold_notin (fa : List (String × Value)) (k : String) :
    ∀ init : List (String × Value), (∀ kv ∈ fa, kv.1 ≠ k) →
      objGet (fa.foldl (fun vs kv => objInsert vs (":" ++ kv.1) kv.2) init)
          (":" ++ k) =
        objGet init (":" ++ k) := by
  induction fa with
  | nil => intro init h; rfl
  | cons kv rest ih =>
    intro init h
    have hk : kv.1 ≠ k := h kv (by simp)
    have hne : (":" ++ kv.1 : String) ≠ (":" ++ k : String) := by
      intro hc
      apply hk
      cases hkv : kv.1 with
      | mk ds =>
        cases hkk : k with
        | mk es =>
          rw [hkv, hkk] at hc
          have : ':' :: ds = ':' :: es := congrArg String.data hc
          simp only [List.cons.injEq, true_and] at this
          rw [this]
    rw [List.foldl_cons, ih _ (fun x hx => h x (by simp [hx])),
      objGet_objInsert_ne _ _ _ _ hne]

theorem objGet_colonFold_mem (fa : List (String × Value)) (k : String) (w : Value)
    (hmem : (k, w) ∈ fa) (hnodup : (fa.map Prod.fst).Nodup) :
    ∀ init : List (String × Value),
      objGet (fa.foldl (fun vs kv => objInsert vs (":" ++ kv.1) kv.2) init)
          (":" ++ k) =
        some w := by
  induction fa with
  | nil => simp at hmem
  | cons kv rest ih =>
    obtain ⟨k1, v1⟩ := kv
    intro init
    simp only [List.map_cons, List.nodup_cons] at hnodup
    rcases List.mem_cons.mp hmem with heq | hmem'
    · injection heq with hk1 hv1
      subst hk1
      subst hv1
      rw [List.foldl_cons]
      have hnotin : ∀ x ∈ rest, x.1 ≠ k := by
        intro x hx hc
        apply hnodup.1
        rw [← hc]
        exact List.mem_map_of_mem Prod.fst hx
      rw [objGet_colonFold_notin rest k _ hnotin, objGet_objInsert_self]
    · rw [List.foldl_cons]
      exact ih hmem' hnodup.2 _

theorem mergeFilterAttrs_values (names : List (String × String))
    (values : List (String × Value)) (fa : List (String × Value)) :
    (mergeFilterAttrs names values fa).2 =
      fa.foldl (fun vs kv => objInsert vs (":" ++ kv.1) kv.2) values := by
  induction fa generalizing names values with
  | nil => rfl
  | cons kv rest ih =>
    simp only [mergeFilterAttrs, List.foldl_cons] at *
    rw [ih]

/-- C9: if the compiled query has a partition-key (or sort-key) clause and
its filter attributes contain an entry whose key equals that key
attribute's name, the engine's merge step silently overwrites the
key-condition value placeholder `:name` with the filter attribute's value
(the assignment in the merge loop is unconditional), and the engine raises
no error — whenever setup succeeds, the value map handed to the read
operation holds the filter value under `:name`. -/
theorem C9_filter_overwrites_key :
    (∀ (o : QueryOptions) (pk : PartitionKeyClause) (fa : List (String × Value))
        (w : Value) (r : EngineCall),
      o.partitionKey = some pk → o.filterAttributes = some fa →
      (pk.name, w) ∈ fa → (fa.map Prod.fst).Nodup →
      buildEngineCall o = .ok r →
      objGet r.expressionAttributeValues (":" ++ pk.name) = some w) ∧
    (∀ (o : QueryOptions) (sk : SortKeyClause) (fa : List (String × Value))
        (w : Value) (r : EngineCall),
      o.sortKey = some sk → o.filterAttributes = some fa →
      (sk.name, w) ∈ fa → (fa.map Prod.fst).Nodup →
      buildEngineCall o = .ok r →
      objGet r.expressionAttributeValues (":" ++ sk.name) = some w) := by
  have hcore : ∀ (o : QueryOptions) (k : String) (fa : List (String × Value))
      (w : Value) (r : EngineCall),
      o.filterAttributes = some fa → (k, w) ∈ fa → (fa.map Prod.fst).Nodup →
      buildEngineCall o = .ok r →
      objGet r.expressionAttributeValues (":" ++ k) = some w := by
    intro o k fa w r hfa hmem hnodup hr
    unfold buildEngineCall at hr
    cases hkp : buildKeyPart o with
    | error e =>
      rw [hkp] at hr
      exact Except.noConfusion hr
    | ok knv =>
      rw [hkp] at hr
      simp only [Except.ok.injEq] at hr
      subst hr
      simp only [hfa, Option.getD_some, mergeFilterAttrs_values]
      exact objGet_colonFold_mem fa k w hmem hnodup knv.2.2
  exact ⟨fun o pk fa w r _ hfa hmem hnodup hr => hcore o pk.name fa w r hfa hmem hnodup hr,
    fun o sk fa w r _ hfa hmem hnodup hr => hcore o sk.name fa w r hfa hmem hnodup hr⟩

theorem C9_filter_overwrites_key_witness :
    objGet
        (EngineCall.expressionAttributeValues
          ⟨true, some "#id = :id", [("#id", "id")], [(":id", .int 5)], none⟩)
        (":" ++ "id") =
      some (.int 5) ∧
    objGet
        (EngineCall.expressionAttributeValues
          ⟨true, some "#id = :id AND #ts = :ts", [("#id", "id"), ("#ts", "ts")],
            [(":id", .str "A"), (":ts", .int 7)], none⟩)
        (":" ++ "ts") =
      some (.int 7) :=
  ⟨C9_filter_overwrites_key.1
      { partitionKey := some ⟨"id", .str "A"⟩,
        filterAttributes := some [("id", .int 5)] }
      ⟨"id", .str "A"⟩ [("id", .int 5)] (.int 5)
      ⟨true, some "#id = :id", [("#id", "id")], [(":id", .int 5)], none⟩
      rfl rfl (by decide) (by decide) (by decide),
    C9_filter_overwrites_key.2
      { partitionKey := some ⟨"id", .str "A"⟩,
        sortKey := some ⟨"ts", "=", .str "T", none⟩,
        filterAttributes := some [("ts", .int 7)] }
      ⟨"ts", "=", .str "T", none⟩ [("ts", .int 7)] (.int 7)
      ⟨true, some "#id = :id AND #ts = :ts", [("#id", "id"), ("#ts", "ts")],
        [(":id", .str "A"), (":ts", .int 7)], none⟩
      rfl rfl (by decide) (by decide) (by decide)⟩

theorem strMk_data (s : String) : String.mk s.data = s := rfl

theorem ite_lineterm_tail (op v : String) (hnl : v.data.any jsIsLineTerm = false)
    (htrim : jsTrimL v.data = v.data) :
    (if v.data.any jsIsLineTerm then (none : Option (String × String))
     else some (op, String.mk (jsTrimL v.data))) = some (op, v) := by
  rw [hnl, htrim, strMk_data]
  simp

theorem optSepDrop_id (l : List Char)
    (hh : ∀ c, l.head? = some c → (c == ':' || jsIsSpace c) = false) :
    optSepDrop l = l := by
  cases l with
  | nil => rfl
  | cons c t =>
    have h := hh c rfl
    simp [optSepDrop, h]

theorem sortComp_of_opAlt (cs : List Char) (op v : String)
    (ha : opAltSort cs = some (op, v.data))
    (hh : ∀ c, v.data.head? = some c → (c == ':' || jsIsSpace c) = false)
    (hnl : v.data.any jsIsLineTerm = false)
    (htrim : jsTrimL v.data = v.data) :
    sortComp cs = some (op, v) := by
  simp only [sortComp, ha]
  rw [optSepDrop_id v.data hh]
  exact ite_lineterm_tail op v hnl htrim

theorem sortComp_of_opAlt_sep (cs : List Char) (op v : String) (sep : Char)
    (ha : opAltSort cs = some (op, sep :: v.data))
    (hsep : (sep == ':' || jsIsSpace sep) = true)
    (hnl : v.data.any jsIsLineTerm = false)
    (htrim : jsTrimL v.data = v.data) :
    sortComp cs = some (op, v) := by
  simp only [sortComp, ha]
  have hdrop : optSepDrop (sep :: v.data) = v.data := by simp [optSepDrop, hsep]
  rw [hdrop]
  exact ite_lineterm_tail op v hnl htrim

theorem parseSortToken_comp (name input op v : String)
    (hb : ciStarts "between(".data input.data = false)
    (hbw : ciStarts "begins_with(".data input.data = false)
    (hsc : sortComp input.data = some (op, v)) :
    parseSortToken name input = .ok ⟨name, op, .str v, none⟩ := by
  unfold parseSortToken
  rw [hb, if_neg (show ¬(false = true) by decide), hbw,
    if_neg (show ¬(false = true) by decide), hsc]

/-- C6 amended: for op in {<, <=, >, >=, =} and a value v that is already
trimmed, does not begin with a colon or whitespace, contains no line
terminator, and does not begin with `=` when op is `<` or `>`, the three
sort tokens `"op v"`, `"opv"` and `"op:v"` all compile to the comparison
clause with operator op and value v.  (Without the guards the claim fails:
see the counterexample, where `"<" + "=3"` re-parses as `<=`.) -/
theorem C6_amended (name op v : String)
    (hop : op = "<=" ∨ op = ">=" ∨ op = "<" ∨ op = ">" ∨ op = "=")
    (htrim : jsTrimL v.data = v.data)
    (hhead : ∀ c, v.data.head? = some c → (c == ':' || jsIsSpace c) = false)
    (hnl : v.data.any jsIsLineTerm = false)
    (heq : (op = "<" ∨ op = ">") → ∀ c, v.data.head? = some c → (c == '=') = false) :
    parseSortToken name (op ++ " " ++ v) = .ok ⟨name, op, .str v, none⟩ ∧
    parseSortToken name (op ++ v) = .ok ⟨name, op, .str v, none⟩ ∧
    parseSortToken name (op ++ ":" ++ v) = .ok ⟨name, op, .str v, none⟩ := by
  rcases hop with rfl | rfl | rfl | rfl | rfl
  · exact ⟨parseSortToken_comp name _ "<=" v rfl rfl
        (sortComp_of_opAlt_sep _ "<=" v ' ' rfl (by decide) hnl htrim),
      parseSortToken_comp name _ "<=" v rfl rfl
        (sortComp_of_opAlt _ "<=" v rfl hhead hnl htrim),
      parseSortToken_comp name _ "<=" v rfl rfl
        (sortComp_of_opAlt_sep _ "<=" v ':' rfl (by decide) hnl htrim)⟩
  · exact ⟨parseSortToken_comp name _ ">=" v rfl rfl
        (sortComp_of_opAlt_sep _ ">=" v ' ' rfl (by decide) hnl htrim),
      parseSortToken_comp name _ ">=" v rfl rfl
        (sortComp_of_opAlt _ ">=" v rfl hhead hnl htrim),
      parseSortToken_comp name _ ">=" v rfl rfl
        (sortComp_of_opAlt_sep _ ">=" v ':' rfl (by decide) hnl htrim)⟩
  · refine ⟨parseSortToken_comp name _ "<" v rfl rfl
        (sortComp_of_opAlt_sep _ "<" v ' ' rfl (by decide) hnl htrim), ?_,
      parseSortToken_comp name _ "<" v rfl rfl
        (sortComp_of_opAlt_sep _ "<" v ':' rfl (by decide) hnl htrim)⟩
    cases hvd : v.data with
    | nil =>
      have hv0 : v = "" := by
        have h1 := congrArg String.mk hvd
        rwa [strMk_data] at h1
      subst hv0
      exact parseSortToken_comp name _ "<" "" rfl rfl rfl
    | cons c t =>
      have hc : ¬(c = '=') := by
        have h := heq (Or.inl rfl) c (by rw [hvd]; rfl)
        simpa using h
      have ha : opAltSort ('<' :: v.data) = some ("<", v.data) := by
        rw [hvd]
        show (if c = '=' then some ("<=", t) else some ("<", c :: t)) =
          some ("<", c :: t)
        rw [if_neg hc]
      exact parseSortToken_comp name _ "<" v rfl rfl
        (sortComp_of_opAlt _ "<" v ha hhead hnl htrim)
  · refine ⟨parseSortToken_comp name _ ">" v rfl rfl
        (sortComp_of_opAlt_sep _ ">" v ' ' rfl (by decide) hnl htrim), ?_,
      parseSortToken_comp name _ ">" v rfl rfl
        (sortComp_of_opAlt_sep _ ">" v ':' rfl (by decide) hnl htrim)⟩
    cases hvd : v.data with
    | nil =>
      have hv0 : v = "" := by
        have h1 := congrArg String.mk hvd
        rwa [strMk_data] at h1
      subst hv0
      exact parseSortToken_comp name _ ">" "" rfl rfl rfl
    | cons c t =>
      have hc : ¬(c = '=') := by
        have h := heq (Or.inr rfl) c (by rw [hvd]; rfl)
        simpa using h
      have ha : opAltSort ('>' :: v.data) = some (">", v.data) := by
        rw [hvd]
        show (if c = '=' then some (">=", t) else some (">", c :: t)) =
          some (">", c :: t)
        rw [if_neg hc]
      exact parseSortToken_comp name _ ">" v rfl rfl
        (sortComp_of_opAlt _ ">" v ha hhead hnl htrim)
  · exact ⟨parseSortToken_comp name _ "=" v rfl rfl
        (sortComp_of_opAlt_sep _ "=" v ' ' rfl (by decide) hnl htrim),
      parseSortToken_comp name _ "=" v rfl rfl
        (sortComp_of_opAlt _ "=" v rfl hhead hnl htrim),
      parseSortToken_comp name _ "=" v rfl rfl
        (sortComp_of_opAlt_sep _ "=" v ':' rfl (by decide) hnl htrim)⟩

/-- C6 counterexample: with operator `<` and value `=3`, the no-separator
form `"opv"` is the token `"<=3"`, which the parser reads as operator `<=`
with value `3` (the two-character alternatives are tried first), not as
operator `<` with value `=3` as the claim requires for every value. -/
theorem C6_counterexample :
    parseSortToken "ts" "<=3" = .ok ⟨"ts", "<=", .str "3", none⟩ ∧
    parseSortToken "ts" "<=3" ≠ .ok ⟨"ts", "<", .str "=3", none⟩ := by
  decide

theorem C6_amended_witness :
    parseSortToken "ts" ("<" ++ " " ++ "100") = .ok ⟨"ts", "<", .str "100", none⟩ ∧
    parseSortToken "ts" ("<" ++ "100") = .ok ⟨"ts", "<", .str "100", none⟩ ∧
    parseSortToken "ts" ("<" ++ ":" ++ "100") = .ok ⟨"ts", "<", .str "100", none⟩ :=
  C6_amended "ts" "<" "100" (Or.inr (Or.inr (Or.inl rfl))) (by decide)
    (by
      intro c hc
      cases hc
      decide)
    (by decide)
    (by
      intro h c hc
      cases hc
      decide)

theorem kwSplit_concat (r1 kw rest : List Char) (h : kwSplit r1 = some (kw, rest)) :
    kw ++ rest = r1 := by
  unfold kwSplit at h
  repeat' split at h
  all_goals first
    | exact Option.noConfusion h
    | (simp only [Option.some.injEq, Prod.mk.injEq] at h
       obtain ⟨h1, h2⟩ := h
       subst h1
       subst h2
       rfl)

theorem trySepAt_concat (cs sep after : List Char)
    (h : trySepAt cs = some (sep, after)) : sep ++ after = cs ∧ sep ≠ [] := by
  simp only [trySepAt] at h
  split at h
  · exact Option.noConfusion h
  · rename_i hw1
    split at h
    · rename_i kwr hkw
      split at h
      · exact Option.noConfusion h
      · rename_i hw2
        simp only [Option.some.injEq, Prod.mk.injEq] at h
        obtain ⟨h1, h2⟩ := h
        subst h1
        subst h2
        constructor
        · have e1 : kwr.1 ++ kwr.2 = cs.dropWhile jsIsSpace :=
            kwSplit_concat _ _ _ (by rw [hkw])
          calc cs.takeWhile jsIsSpace ++ kwr.1 ++ kwr.2.takeWhile jsIsSpace ++
                kwr.2.dropWhile jsIsSpace
              = cs.takeWhile jsIsSpace ++ kwr.1 ++
                  (kwr.2.takeWhile jsIsSpace ++ kwr.2.dropWhile jsIsSpace) := by
                simp [List.append_assoc]
            _ = cs.takeWhile jsIsSpace ++ kwr.1 ++ kwr.2 := by
                rw [List.takeWhile_append_dropWhile]
            _ = cs.takeWhile jsIsSpace ++ (kwr.1 ++ kwr.2) := by
                simp [List.append_assoc]
            _ = cs.takeWhile jsIsSpace ++ cs.dropWhile jsIsSpace := by rw [e1]
            _ = cs := List.takeWhile_append_dropWhile _ _
        · intro hc
          have h0 : cs.takeWhile jsIsSpace = [] :=
            (List.append_eq_nil.mp ((List.append_eq_nil.mp hc).1)).1
          rw [h0] at hw1
          exact hw1 rfl
    · exact Option.noConfusion h

theorem findSep_concat : ∀ (cs b sep a : List Char),
    findSep cs = some (b, sep, a) → b ++ (sep ++ a) = cs := by
  intro cs
  induction cs with
  | nil => intro b sep a h; exact Option.noConfusion h
  | cons c rest ih =>
    intro b sep a h
    rw [show findSep (c :: rest) = findSepStep c rest (findSep rest) from rfl] at h
    unfold findSepStep at h
    cases hts : trySepAt (c :: rest) with
    | some sa =>
      rw [hts] at h
      simp only [Option.some.injEq, Prod.mk.injEq] at h
      obtain ⟨h1, h2, h3⟩ := h
      subst h1
      subst h2
      subst h3
      have := trySepAt_concat (c :: rest) sa.1 sa.2 (by rw [hts])
      simpa using this.1
    | none =>
      rw [hts] at h
      cases hfs : findSep rest with
      | some bsa =>
        rw [hfs] at h
        simp only [Option.some.injEq, Prod.mk.injEq] at h
        obtain ⟨h1, h2, h3⟩ := h
        subst h1
        subst h2
        subst h3
        have := ih bsa.1 bsa.2.1 bsa.2.2 (by rw [hfs])
        simpa [List.append_assoc] using congrArg (c :: ·) this
      | none =>
        rw [hfs] at h
        exact Option.noConfusion h

theorem splitGo_flatten : ∀ (fuel : Nat) (cs : List Char),
    (splitGo fuel cs).flatten = cs := by
  intro fuel
  induction fuel with
  | zero => intro cs; simp [splitGo]
  | succ fuel ih =>
    intro cs
    unfold splitGo
    split
    · simp
    · rename_i bsa hbsa
      simp only [List.flatten_cons, ih]
      rw [← List.append_assoc]
      have := findSep_concat cs bsa.1 bsa.2.1 bsa.2.2 (by rw [hbsa])
      simpa [List.append_assoc] using this

theorem normParts_ne_nil (attrs : List (String × Value)) (p : List Char)
    (rest : List (List Char)) : (normParts attrs (p :: rest)).1 ≠ [] := by
  simp [normParts]

theorem joinWith_cons2 (sep a : String) (l : List String) (h : l ≠ []) :
    joinWith sep (a :: l) = a ++ sep ++ joinWith sep l := by
  cases l with
  | nil => exact absurd rfl h
  | cons b t => rfl

theorem strMk_append (a b : List Char) :
    String.mk a ++ String.mk b = String.mk (a ++ b) := rfl

theorem normParts_id : ∀ (ps : List (List Char)), partsOk ps →
    ∀ attrs : List (String × Value),
      (normParts attrs ps).2 = attrs ∧
      joinWith " " (normParts attrs ps).1 = String.mk ps.flatten
  | [], _, attrs => by
    constructor
    · rfl
    · rfl
  | [p], hp, attrs => by
    have h := hp attrs
    constructor
    · simp [normParts, h]
    · simp only [normParts, h, joinWith, List.flatten_cons, List.flatten_nil,
        List.append_nil]
  | [_, _], hf, _ => hf.elim
  | p :: s :: q :: rest, ⟨hp, ⟨w, hw, hws⟩, hrec⟩, attrs => by
    have IH := normParts_id (q :: rest) hrec attrs
    have hpp := hp attrs
    have hss := hws attrs
    have e1 : normParts attrs (p :: s :: q :: rest) =
        (String.mk p :: String.mk w :: (normParts attrs (q :: rest)).1,
         (normParts attrs (q :: rest)).2) := by
      simp [normParts, hpp, hss]
    rw [e1]
    refine ⟨IH.1, ?_⟩
    have hne := normParts_ne_nil attrs q rest
    rw [joinWith_cons2 " " (String.mk p) _ (by simp),
      joinWith_cons2 " " (String.mk w) _ hne, IH.2]
    simp only [List.flatten_cons, hw,
      show (" " : String) = String.mk [' '] from rfl, strMk_append]
    congr 1
    simp [List.append_assoc]

/-- C8 amended: the normalizer is total (it is a function on all input
strings and raises nothing), and it is the identity on expressions whose
split yields only pass-through elements and AND/OR separators written with
exactly one space on each side — it then returns the expression unchanged
with an empty attributes map.  (On separators with other whitespace the
rejoin collapses it to single spaces: see the counterexample.) -/
theorem C8_amended (e : String) (h : partsOk (splitParts e.data)) :
    normalizeFilterExpression e = ⟨e, []⟩ := by
  have H := normParts_id (splitParts e.data) h []
  unfold normalizeFilterExpression
  simp only [NormResult.mk.injEq]
  refine ⟨?_, H.1⟩
  rw [H.2]
  unfold splitParts
  rw [splitGo_flatten]

/-- C8 counterexample: on an expression whose elements all use placeholder
syntax but whose AND separator is written with two spaces on each side, the
normalizer returns a different string (the separator whitespace is collapsed
to single spaces by the rejoin), so normalization is not the identity on all
placeholder-only expressions as claimed. -/
theorem C8_counterexample :
    normalizeFilterExpression "#x = :x  AND  #y = :y" =
      ⟨"#x = :x AND #y = :y", []⟩ ∧
    ("#x = :x AND #y = :y" : String) ≠ "#x = :x  AND  #y = :y" := by
  decide

theorem C8_amended_witness :
    normalizeFilterExpression "#x = :x AND #y = :y" =
      ⟨"#x = :x AND #y = :y", []⟩ := by
  apply C8_amended
  show partsOk ["#x = :x".data, " AND ".data, "#y = :y".data]
  exact ⟨fun attrs => rfl, ⟨"AND".data, rfl, fun attrs => rfl⟩, fun attrs => rfl⟩
